import Mathlib

/-!
Verification development for the `jiradeps` tool (`main.go`).

The tool renders the dependency graph of Jira issues: starting from a root
issue it recursively follows issue links, deduplicating edges by a string
signature kept in a `StringSet`, and emits each new edge to a mermaid
flowchart builder.

Shallow embedding notes:
* `jira.Issue` is flattened: the Go code only reads `Key` and
  `Fields.{Summary, Status.Name, Type.Name, IssueLinks}`, so `Issue` carries
  those fields directly.  Linked issues are embedded by value exactly as in
  the decoded JSON (`*jira.IssueLink` holds full `*jira.Issue` values for
  `OutwardIssue` / `InwardIssue`, which may in turn carry their own links).
* The remote Jira server is an explicit environment `Env`:
  `Env.issues` models `client.Issue.Get` (keyed by issue key; `none` models
  a request error, in which case go-jira returns a nil issue pointer),
  `Env.searchPage` models one page of the `rest/api/3/search/jql` endpoint
  used by `SearchWithContext`, and `Env.bulkIssues` models the
  `rest/api/3/issue/bulkfetch` endpoint used by `BulkFetchIssues`.
* The traversal `getAllLinks` is given fuel because the Go recursion is not
  structural; `TravResult.outOfFuel` marks fuel exhaustion (a modelling
  artifact, shown unreachable for enough fuel), and `TravResult.panicked`
  marks the nil-pointer dereference that the Go code performs when
  `client.Issue.Get` fails during expansion (go-jira returns a nil `*Issue`
  on error and `getAllLinks` then evaluates `issue.Fields.IssueLinks`).
* `TravState.fetched` records the keys passed to `client.Issue.Get` during
  expansion, and `TravState.processed` records, for every `getAllLinks`
  invocation, the current issue key together with whether its link list was
  empty on entry.  Both are observationally inert instrumentation (they are
  never read by the traversal) used to state the lazy-expansion claims.
-/

/-- Jira link type: `jira.IssueLinkType` restricted to the fields the code
reads (`Name` and `Outward`). -/
structure LinkType where
  name : String
  outward : String
deriving DecidableEq

mutual
/-- `jira.Issue`, flattened to the fields the program reads. -/
inductive Issue : Type where
  | mk : (key : String) → (summary : String) → (status : String) →
      (typeName : String) → (issueLinks : List IssueLink) → Issue
/-- `jira.IssueLink`: a link carries its type and optional outward / inward
issue values. -/
inductive IssueLink : Type where
  | mk : (type : LinkType) → (outwardIssue : Option Issue) →
      (inwardIssue : Option Issue) → IssueLink
end

def Issue.key : Issue → String
  | .mk k _ _ _ _ => k

def Issue.summary : Issue → String
  | .mk _ s _ _ _ => s

def Issue.status : Issue → String
  | .mk _ _ s _ _ => s

def Issue.typeName : Issue → String
  | .mk _ _ _ t _ => t

def Issue.issueLinks : Issue → List IssueLink
  | .mk _ _ _ _ ls => ls

def IssueLink.type : IssueLink → LinkType
  | .mk t _ _ => t

def IssueLink.outwardIssue : IssueLink → Option Issue
  | .mk _ o _ => o

def IssueLink.inwardIssue : IssueLink → Option Issue
  | .mk _ _ i => i

/-- `type StringSet map[string]struct{}`.  Modelled as a list without
duplicates-by-construction: `Add` inserts only when absent, `Exists` is
membership, mirroring the Go methods. -/
abbrev StringSet := List String

/-- `func (s StringSet) Add(n string)`. -/
def StringSet.Add (s : StringSet) (n : String) : StringSet :=
  if List.contains s n then s else s ++ [n]

/-- `func (s StringSet) Exists(n string) bool`. -/
def StringSet.Exists (s : StringSet) (n : String) : Bool :=
  List.contains s n

/-- `type JiraLink struct { From *jira.Issue; Link *jira.IssueLink; To *jira.Issue }`. -/
structure JiraLink where
  From : Issue
  Link : IssueLink
  To : Issue

/-- The signature string `fmt.Sprintf("%s == %s ==> %s", from, type, to)`
shared by `JiraLink.String`. -/
def mkSig (f t dst : String) : String :=
  f ++ " == " ++ t ++ " ==> " ++ dst

/-- `func (l JiraLink) String() string`. -/
def JiraLink.toString (l : JiraLink) : String :=
  mkSig l.From.key l.Link.type.name l.To.key

/-- ASCII case folding of one character (model of Unicode simple folding on
the inputs the program compares, which are ASCII link-type names). -/
def asciiLower (c : Char) : Char :=
  if 'A' ≤ c ∧ c ≤ 'Z' then Char.ofNat (c.toNat + 32) else c

/-- `strings.EqualFold`, modelled by ASCII case folding. -/
def eqFold (a b : String) : Bool :=
  a.data.map asciiLower == b.data.map asciiLower

/-- An emitted flowchart edge: `fc.AddEdge(n1, n2)` plus the attributes set
by `AddLink` (`e.Text = []string{link.Link.Type.Outward}` and the shape,
`EShapeThickLine` when the type name case-folds to "relates", otherwise
`EShapeThickArrow`). -/
structure Edge where
  fromKey : String
  toKey : String
  typeName : String
  text : String
  thickLine : Bool
deriving DecidableEq

/-- The edge built by `AddLink` from a `JiraLink`. -/
def mkEdge (jl : JiraLink) : Edge :=
  { fromKey := jl.From.key
    toKey := jl.To.key
    typeName := jl.Link.type.name
    text := jl.Link.type.outward
    thickLine := eqFold jl.Link.type.name "relates" }

/-- The deduplication signature of an emitted edge (same string
`JiraLink.String` produced for the link it came from). -/
def edgeSig (e : Edge) : String :=
  mkSig e.fromKey e.typeName e.toKey

/-- Observable state of one traversal: the `StringSet` of visited link
signatures, the flowchart contents (`nodes` added by `AddJiraNode`, first
write wins, and `edges` added by `AddLink`, in emission order), plus the two
instrumentation logs described in the header. -/
structure TravState where
  visited : StringSet
  edges : List Edge
  fetched : List String
  processed : List (String × Bool)
  nodes : List String
deriving DecidableEq

def initState : TravState :=
  { visited := [], edges := [], fetched := [], processed := [], nodes := [] }

/-- `func AddJiraNode(...)`: `fc.GetNode(key)` then `fc.AddNode(key)` only
when absent (node labels/styles are rendering attributes, not modelled). -/
def AddJiraNode (nodes : List String) (key : String) : List String :=
  if List.contains nodes key then nodes else nodes ++ [key]

/-- `func AddLink(fc *flowchart.Flowchart, link JiraLink)`. -/
def AddLink (st : TravState) (jl : JiraLink) : TravState :=
  { st with
    nodes := AddJiraNode (AddJiraNode st.nodes jl.From.key) jl.To.key
    edges := st.edges ++ [mkEdge jl] }

/-- `links.Add(sig)` on the visited set threaded through the traversal. -/
def markVisited (st : TravState) (sig : String) : TravState :=
  { st with visited := StringSet.Add st.visited sig }

/-- Result of a traversal step: normal completion, a Go runtime panic
(nil-pointer dereference after a failed expansion fetch), or fuel
exhaustion (modelling artifact). -/
inductive TravResult where
  | ok (st : TravState)
  | panicked (st : TravState)
  | outOfFuel
deriving DecidableEq

/-- The state carried by a completed-or-panicked result. -/
def resState : TravResult → Option TravState
  | .ok st => some st
  | .panicked st => some st
  | .outOfFuel => none

/-- Sequencing of traversal steps: panics and fuel exhaustion abort the
rest, as in Go. -/
def TravResult.andThen (r : TravResult) (f : TravState → TravResult) : TravResult :=
  match r with
  | .ok st => f st
  | r => r

/-- One page of the paginated v3 JQL search (`issues[*].id` and
`nextPageToken`, empty string meaning last page). -/
structure SearchPage where
  issueIDs : List String
  nextPageToken : String

/-- The remote Jira server. -/
structure Env where
  issues : List (String × Issue)
  searchPage : String → Option String → Option SearchPage
  bulkIssues : List String → Option (List Issue)

/-- Key lookup in the server's issue table (`client.Issue.Get`); `none` is a
request error. -/
def lookupIssue : List (String × Issue) → String → Option Issue
  | [], _ => none
  | (k, i) :: rest, key => if k = key then some i else lookupIssue rest key

def Env.fetch (env : Env) (key : String) : Option Issue :=
  lookupIssue env.issues key

/-- The body of the outward-issue branch of the loop in `getAllLinks`
(main.go:257-268) and of the inward-issue branch (main.go:270-281): check
the visited set, and when the signature is new emit the edge (`AddLink`),
add the signature (`links.Add`) and recurse into `target` — the outward
issue for an outward reference, the inward issue for an inward one. -/
def visitLink (rec : Issue → TravState → TravResult) (jl : JiraLink)
    (target : Issue) (st : TravState) : TravResult :=
  if StringSet.Exists st.visited jl.toString then .ok st
  else rec target (markVisited (AddLink st jl) jl.toString)

/-- `if link.OutwardIssue != nil { ... }` (main.go:257-268): the edge runs
from the current issue to the outward issue. -/
def outwardStep (rec : Issue → TravState → TravResult) (issue : Issue)
    (link : IssueLink) (st : TravState) : TravResult :=
  match link.outwardIssue with
  | none => .ok st
  | some o => visitLink rec ⟨issue, link, o⟩ o st

/-- `if link.InwardIssue != nil { ... }` (main.go:270-281): the edge runs
from the inward issue to the current issue (direction inverted relative to
discovery). -/
def inwardStep (rec : Issue → TravState → TravResult) (issue : Issue)
    (link : IssueLink) (st : TravState) : TravResult :=
  match link.inwardIssue with
  | none => .ok st
  | some i => visitLink rec ⟨i, link, issue⟩ i st

/-- `for _, link := range issue.Fields.IssueLinks` in `getAllLinks`:
process the outward then the inward reference of each link in order,
threading the visited set and flowchart. -/
def processLinks (rec : Issue → TravState → TravResult) (issue : Issue) :
    List IssueLink → TravState → TravResult
  | [], st => .ok st
  | link :: rest, st =>
    (outwardStep rec issue link st).andThen fun st1 =>
      (inwardStep rec issue link st1).andThen fun st2 =>
        processLinks rec issue rest st2

/-- `func getAllLinks(issue *jira.Issue, client *jira.Client, links StringSet,
fc *flowchart.Flowchart)` (main.go:251-283).  When the current issue has no
links it is re-fetched by its own key; a failed fetch leaves a nil issue
pointer whose `Fields` dereference panics (`TravResult.panicked`). -/
def getAllLinks : Nat → Issue → Env → TravState → TravResult
  | 0, _, _, _ => .outOfFuel
  | fuel + 1, issue0, env, st0 =>
    let stP := { st0 with
      processed := st0.processed ++ [(issue0.key, issue0.issueLinks.isEmpty)] }
    if issue0.issueLinks.isEmpty then
      let stF := { stP with fetched := stP.fetched ++ [issue0.key] }
      match env.fetch issue0.key with
      | none => .panicked stF
      | some issue1 =>
        processLinks (fun i s => getAllLinks fuel i env s) issue1 issue1.issueLinks stF
    else
      processLinks (fun i s => getAllLinks fuel i env s) issue0 issue0.issueLinks stP

/-- `strings.TrimSpace`, modelled for ASCII space (the characters issue-key
arguments can carry here). -/
def trimSpace (s : String) : String :=
  ⟨((s.data.dropWhile (· = ' ')).reverse.dropWhile (· = ' ')).reverse⟩

/-- `func SearchWithContext(...)` (main.go:288-329): paginated v3 JQL
search.  Each iteration posts the body (with the continuation token from the
previous page, none for the first request), collects `issues[*].id`, and
stops when `nextPageToken` is empty.  A failed request makes the function
return a non-nil error, which its only caller `SearchAndFetch` treats as
failure, so a page error is collapsed to `none` here.  Fuel bounds the page
loop (modelling artifact). -/
def SearchWithContext (env : Env) (jql : String) :
    Nat → Option String → Option (List String)
  | 0, _ => none
  | fuel + 1, tok =>
    match env.searchPage jql tok with
    | none => none
    | some page =>
      if page.nextPageToken = "" then some page.issueIDs
      else
        match SearchWithContext env jql fuel (some page.nextPageToken) with
        | none => none
        | some ids => some (page.issueIDs ++ ids)

/-- `func BulkFetchIssues(...)` (main.go:334-362): a single batched detail
fetch; an empty ID list returns no issues without a request. -/
def BulkFetchIssues (env : Env) (issueIDs : List String) : Option (List Issue) :=
  if issueIDs.isEmpty then some [] else env.bulkIssues issueIDs

/-- `func SearchAndFetch(...)` (main.go:364-376). -/
def SearchAndFetch (env : Env) (fuel : Nat) (jql : String) : Option (List Issue) :=
  match SearchWithContext env jql fuel none with
  | none => none
  | some ids => BulkFetchIssues env ids

/-- `for _, childIssue := range issues { getAllLinks(&childIssue, c, linkSet, fc) }`
(main.go:396-398): every child is traversed with the same visited set and
flowchart; a panic aborts the remaining children as in Go. -/
def traverseAll (fuel : Nat) (env : Env) : List Issue → TravState → TravResult
  | [], st => .ok st
  | i :: rest, st =>
    match getAllLinks fuel i env st with
    | .ok st' => traverseAll fuel env rest st'
    | r => r

/-- Outcome of `genDepFlowchart` for one root: an error return (root fetch
or Epic child search failed) or completion with the traversal outcome. -/
inductive GenResult where
  | fetchError
  | trav (r : TravResult)
deriving DecidableEq

/-- `func genDepFlowchart(c *jira.Client, issueNum string, fc *flowchart.Flowchart) error`
(main.go:378-404).  A fresh `linkSet` (and, in `main`, a fresh flowchart) is
used per root.  An "Epic" root is expanded through
`SearchAndFetch("parentEpic = <key>")` and traversal starts from each child
instead of the epic itself; any other root is traversed directly. -/
def genDepFlowchart (env : Env) (fuel : Nat) (issueNum : String) : GenResult :=
  match env.fetch (trimSpace issueNum) with
  | none => .fetchError
  | some issue =>
    if issue.typeName = "Epic" then
      match SearchAndFetch env fuel ("parentEpic = " ++ issue.key) with
      | none => .fetchError
      | some children => .trav (traverseAll fuel env children initState)
    else
      .trav (getAllLinks fuel issue env initState)

/-- The per-root loop of `main` (main.go:476-495): `returnCode` counts the
roots for which `genDepFlowchart` returned an error, and the loop continues
with the remaining roots.  A Go panic inside a traversal crashes the whole
process (modelled as `none`), as does fuel exhaustion (artifact). -/
def runRoots (env : Env) (fuel : Nat) : List String → Nat → Option Nat
  | [], returnCode => some returnCode
  | issueNum :: rest, returnCode =>
    match genDepFlowchart env fuel issueNum with
    | .fetchError => runRoots env fuel rest (returnCode + 1)
    | .trav (.ok _) => runRoots env fuel rest returnCode
    | .trav (.panicked _) => none
    | .trav .outOfFuel => none

/-- Whether `genDepFlowchart` reports an error for a root (root fetch failed,
or Epic child search failed). -/
def rootFails (env : Env) (fuel : Nat) (issueNum : String) : Bool :=
  match genDepFlowchart env fuel issueNum with
  | .fetchError => true
  | _ => false

/-! Boundedness of an issue graph by a finite key set `K` and link-type-name
set `T`: every key and type name occurring in the issue tree lies in
`K` / `T`.  Used to bound the signatures the traversal can ever insert. -/

mutual
inductive IssueBounded (K T : List String) : Issue → Prop where
  | mk : ∀ key summary status typeName links,
      key ∈ K → LinksBounded K T links →
      IssueBounded K T (.mk key summary status typeName links)
inductive LinksBounded (K T : List String) : List IssueLink → Prop where
  | nil : LinksBounded K T []
  | cons : ∀ l ls, LinkBounded K T l → LinksBounded K T ls →
      LinksBounded K T (l :: ls)
inductive LinkBounded (K T : List String) : IssueLink → Prop where
  | mk : ∀ ty oi ii, ty.name ∈ T → OptIssueBounded K T oi →
      OptIssueBounded K T ii → LinkBounded K T (.mk ty oi ii)
inductive OptIssueBounded (K T : List String) : Option Issue → Prop where
  | none : OptIssueBounded K T none
  | some : ∀ i, IssueBounded K T i → OptIssueBounded K T (some i)
end

/-- All signatures over keys `K` and type names `T`. -/
def sigsOf (K T : List String) : List String :=
  K.flatMap fun f => T.flatMap fun t => K.map fun dst => mkSig f t dst

/-- Number of signatures over `(K, T)` not yet in the visited set: the
decreasing measure of the traversal. -/
def sdm (K T : List String) (st : TravState) : Nat :=
  ((sigsOf K T).toFinset \ st.visited.toFinset).card

/-! Concrete scenarios for the individual claims.  Linked issues inside a
link carry no link data of their own (as the Jira API returns them), so the
traversal re-fetches them by key from the environment. -/

def tyBlocks : LinkType := ⟨"blocks", "blocks"⟩

def tyRelates : LinkType := ⟨"Relates", "relates to"⟩

def noSearch : String → Option String → Option SearchPage := fun _ _ => none

def noBulk : List String → Option (List Issue) := fun _ => none

/-- Scenario X (spec §8 example): X-1 blocks X-2; X-2 carries the same link
as an inward reference and relates to X-3. -/
def stubX1 : Issue := .mk "X-1" "" "" "" []

def stubX2 : Issue := .mk "X-2" "" "" "" []

def stubX3 : Issue := .mk "X-3" "" "" "" []

def x1Full : Issue := .mk "X-1" "" "" "Story" [.mk tyBlocks (some stubX2) none]

def x2Full : Issue := .mk "X-2" "" "" "Story"
  [.mk tyBlocks none (some stubX1), .mk tyRelates (some stubX3) none]

def x3Full : Issue := .mk "X-3" "" "" "Story" []

def envX : Env := ⟨[("X-1", x1Full), ("X-2", x2Full), ("X-3", x3Full)], noSearch, noBulk⟩

/-- Cycle scenario: A → B → C → A via "blocks" links. -/
def stubA : Issue := .mk "A" "" "" "" []

def stubB : Issue := .mk "B" "" "" "" []

def stubC : Issue := .mk "C" "" "" "" []

def cycA : Issue := .mk "A" "" "" "Story" [.mk tyBlocks (some stubB) none]

def cycB : Issue := .mk "B" "" "" "Story" [.mk tyBlocks (some stubC) none]

def cycC : Issue := .mk "C" "" "" "Story" [.mk tyBlocks (some stubA) none]

def envCycle : Env := ⟨[("A", cycA), ("B", cycB), ("C", cycC)], noSearch, noBulk⟩

/-- Expansion-failure scenario: root R links to M (whose re-fetch fails —
"M" is absent from the server) and then to L (present and fetchable). -/
def stubM : Issue := .mk "M" "" "" "" []

def stubL : Issue := .mk "L" "" "" "" []

def failRoot : Issue := .mk "R" "" "" "Story"
  [.mk tyBlocks (some stubM) none, .mk tyBlocks (some stubL) none]

def lFull : Issue := .mk "L" "" "" "Story" []

def envFail : Env := ⟨[("R", failRoot), ("L", lFull)], noSearch, noBulk⟩

/-- Self-loop scenario: S carries a single link whose outward and inward
references are both S itself. -/
def tyDup : LinkType := ⟨"duplicates", "duplicates"⟩

def stubS : Issue := .mk "S" "" "" "" []

def selfRoot : Issue := .mk "S" "" "" "Story" [.mk tyDup (some stubS) (some stubS)]

def envSelf : Env := ⟨[("S", selfRoot)], noSearch, noBulk⟩

/-- Signature-collision scenario: root D is reached by two links whose
distinct (from, type, to) triples concatenate to the same signature. -/
def tyBC : LinkType := ⟨"B == C", "b-c"⟩

def tyC : LinkType := ⟨"C", "c"⟩

def stubColA : Issue := .mk "A" "" "" "" []

def stubColAB : Issue := .mk "A == B" "" "" "" []

def colRoot : Issue := .mk "D" "" "" "Story"
  [.mk tyBC none (some stubColA), .mk tyC none (some stubColAB)]

def colA : Issue := .mk "A" "" "" "Story" []

def envCol : Env := ⟨[("D", colRoot), ("A", colA)], noSearch, noBulk⟩

/-- Epic scenario: root E-1 of type "Epic" with two children C-1, C-2
resolved via a two-page search and one bulk fetch; C-1 blocks C-2. -/
def stubC1 : Issue := .mk "C-1" "" "" "" []

def stubC2 : Issue := .mk "C-2" "" "" "" []

def childC1 : Issue := .mk "C-1" "" "" "Story" [.mk tyBlocks (some stubC2) none]

def childC2 : Issue := .mk "C-2" "" "" "Story" [.mk tyBlocks none (some stubC1)]

def epicRoot : Issue := .mk "E-1" "" "" "Epic" []

def envEpic : Env :=
  ⟨[("E-1", epicRoot), ("C-2", childC2)],
   fun jql tok =>
     if jql = "parentEpic = E-1" then
       match tok with
       | none => some ⟨["10001"], "tok2"⟩
       | some t => if t = "tok2" then some ⟨["10002"], ""⟩ else none
     else none,
   fun ids => if ids = ["10001", "10002"] then some [childC1, childC2] else none⟩

/-! Monotonicity and invariant preservation of the traversal. -/

theorem StringSet.Exists_iff {s : StringSet} {n : String} :
    StringSet.Exists s n = true ↔ n ∈ s := by
  simp [StringSet.Exists, List.contains, List.elem_iff]

theorem StringSet.not_mem_of_Exists_false {s : StringSet} {n : String}
    (h : StringSet.Exists s n = false) : n ∉ s := by
  intro hm
  rw [← StringSet.Exists_iff] at hm
  rw [h] at hm
  cases hm

theorem StringSet.Add_eq_append {s : StringSet} {n : String}
    (h : StringSet.Exists s n = false) : StringSet.Add s n = s ++ [n] := by
  unfold StringSet.Add
  rw [show List.contains s n = false from h]
  rfl

/-- The traversal only extends each component of the state. -/
def extendsSt (st st' : TravState) : Prop :=
  st.visited <+: st'.visited ∧ st.edges <+: st'.edges ∧
    st.fetched <+: st'.fetched ∧ st.processed <+: st'.processed ∧
    st.nodes <+: st'.nodes

theorem extendsSt_refl (st : TravState) : extendsSt st st :=
  ⟨List.prefix_refl _, List.prefix_refl _, List.prefix_refl _,
    List.prefix_refl _, List.prefix_refl _⟩

theorem extendsSt_trans {a b c : TravState}
    (h1 : extendsSt a b) (h2 : extendsSt b c) : extendsSt a c :=
  ⟨h1.1.trans h2.1, h1.2.1.trans h2.2.1, h1.2.2.1.trans h2.2.2.1,
    h1.2.2.2.1.trans h2.2.2.2.1, h1.2.2.2.2.trans h2.2.2.2.2⟩

/-- Edge deduplication invariant: the emitted edges carry pairwise distinct
signatures, and every emitted signature is in the visited set. -/
def NodupInv (st : TravState) : Prop :=
  (st.edges.map edgeSig).Nodup ∧ ∀ e ∈ st.edges, edgeSig e ∈ st.visited

/-- Lazy-expansion invariant: the fetch log consists of exactly one entry,
the issue's own key, for each processed issue whose link list was empty on
entry, in order, and nothing else. -/
def FetchInv (st : TravState) : Prop :=
  st.fetched = (st.processed.filter fun p => p.2).map fun p => p.1

/-- Combined step relation of the traversal. -/
def Good (st st' : TravState) : Prop :=
  extendsSt st st' ∧ (NodupInv st → NodupInv st') ∧ (FetchInv st → FetchInv st')

theorem Good.refl (st : TravState) : Good st st :=
  ⟨extendsSt_refl st, id, id⟩

theorem Good.trans {a b c : TravState} (h1 : Good a b) (h2 : Good b c) : Good a c :=
  ⟨extendsSt_trans h1.1 h2.1, fun h => h2.2.1 (h1.2.1 h), fun h => h2.2.2 (h1.2.2 h)⟩

theorem edgeSig_mkEdge (jl : JiraLink) : edgeSig (mkEdge jl) = jl.toString := rfl

theorem AddJiraNode_grows (ns : List String) (k : String) : ns <+: AddJiraNode ns k := by
  unfold AddJiraNode
  split
  · exact List.prefix_refl _
  · exact List.prefix_append _ _

/-- Emitting a fresh edge and marking it visited is a `Good` step. -/
theorem good_emit {st : TravState} {jl : JiraLink}
    (h : StringSet.Exists st.visited jl.toString = false) :
    Good st (markVisited (AddLink st jl) jl.toString) := by
  have hnm : jl.toString ∉ st.visited := StringSet.not_mem_of_Exists_false h
  have hadd : StringSet.Add st.visited jl.toString = st.visited ++ [jl.toString] :=
    StringSet.Add_eq_append h
  refine ⟨⟨?_, ?_, ?_, ?_, ?_⟩, ?_, ?_⟩
  · simp only [markVisited, AddLink, hadd]
    exact List.prefix_append _ _
  · simp only [markVisited, AddLink]
    exact List.prefix_append _ _
  · exact List.prefix_refl _
  · exact List.prefix_refl _
  · simp only [markVisited, AddLink]
    exact (AddJiraNode_grows _ _).trans (AddJiraNode_grows _ _)
  · rintro ⟨hnd, hmem⟩
    constructor
    · simp only [markVisited, AddLink, List.map_append, List.map_cons, List.map_nil,
        edgeSig_mkEdge]
      rw [List.nodup_append]
      refine ⟨hnd, List.nodup_singleton _, ?_⟩
      intro a ha hb
      rw [List.mem_singleton] at hb
      subst hb
      rcases List.mem_map.mp ha with ⟨e, he, hes⟩
      exact hnm (hes ▸ hmem e he)
    · intro e he
      simp only [markVisited, AddLink, hadd] at he ⊢
      rcases List.mem_append.mp he with he | he
      · exact List.mem_append.mpr (Or.inl (hmem e he))
      · rw [List.mem_singleton] at he
        subst he
        rw [edgeSig_mkEdge]
        exact List.mem_append.mpr (Or.inr (List.mem_singleton.mpr rfl))
  · intro hf
    simpa [markVisited, AddLink, FetchInv] using hf

theorem good_andThen {r : TravResult} {f : TravState → TravResult} {st st'' : TravState}
    (hres : resState (r.andThen f) = some st'')
    (h1 : ∀ s, resState r = some s → Good st s)
    (h2 : ∀ s s', resState r = some s → resState (f s) = some s' → Good s s') :
    Good st st'' := by
  cases r with
  | ok s =>
    simp only [TravResult.andThen] at hres
    exact (h1 s rfl).trans (h2 s st'' rfl hres)
  | panicked s =>
    simp only [TravResult.andThen, resState, Option.some.injEq] at hres
    subst hres
    exact h1 s rfl
  | outOfFuel =>
    simp [TravResult.andThen, resState] at hres

theorem good_visitLink {rec : Issue → TravState → TravResult}
    (hrec : ∀ i s s', resState (rec i s) = some s' → Good s s')
    {jl : JiraLink} {target : Issue} {st st' : TravState}
    (h : resState (visitLink rec jl target st) = some st') : Good st st' := by
  unfold visitLink at h
  split at h
  · simp only [resState, Option.some.injEq] at h
    subst h
    exact Good.refl st
  · rename_i hg
    have hg' : StringSet.Exists st.visited jl.toString = false := by
      revert hg
      cases StringSet.Exists st.visited jl.toString <;> simp
    exact (good_emit hg').trans (hrec _ _ _ h)

theorem good_outwardStep {rec : Issue → TravState → TravResult}
    (hrec : ∀ i s s', resState (rec i s) = some s' → Good s s')
    {issue : Issue} {link : IssueLink} {st st' : TravState}
    (h : resState (outwardStep rec issue link st) = some st') : Good st st' := by
  unfold outwardStep at h
  split at h
  · simp only [resState, Option.some.injEq] at h
    subst h
    exact Good.refl st
  · exact good_visitLink hrec h

theorem good_inwardStep {rec : Issue → TravState → TravResult}
    (hrec : ∀ i s s', resState (rec i s) = some s' → Good s s')
    {issue : Issue} {link : IssueLink} {st st' : TravState}
    (h : resState (inwardStep rec issue link st) = some st') : Good st st' := by
  unfold inwardStep at h
  split at h
  · simp only [resState, Option.some.injEq] at h
    subst h
    exact Good.refl st
  · exact good_visitLink hrec h

theorem good_processLinks {rec : Issue → TravState → TravResult}
    (hrec : ∀ i s s', resState (rec i s) = some s' → Good s s') (issue : Issue) :
    ∀ (links : List IssueLink) (st st' : TravState),
      resState (processLinks rec issue links st) = some st' → Good st st' := by
  intro links
  induction links with
  | nil =>
    intro st st' h
    simp only [processLinks, resState, Option.some.injEq] at h
    subst h
    exact Good.refl st
  | cons link rest ih =>
    intro st st' h
    rw [processLinks] at h
    exact good_andThen h (fun s hs => good_outwardStep hrec hs)
      (fun s s' hs hs' =>
        good_andThen hs' (fun u hu => good_inwardStep hrec hu)
          (fun u u' hu hu' => ih u u' hu'))

/-- Recording the ghost entry for an empty-link issue (together with its
re-fetch) is a `Good` step. -/
theorem good_ghost_empty (st : TravState) (key : String) :
    Good st { st with processed := st.processed ++ [(key, true)],
                      fetched := st.fetched ++ [key] } := by
  refine ⟨⟨List.prefix_refl _, List.prefix_refl _, List.prefix_append _ _,
      List.prefix_append _ _, List.prefix_refl _⟩, ?_, ?_⟩
  · rintro ⟨hnd, hmem⟩
    exact ⟨hnd, hmem⟩
  · intro hf
    simp only [FetchInv] at hf ⊢
    simp [hf]

/-- Recording the ghost entry for a non-empty-link issue is a `Good` step. -/
theorem good_ghost_nonempty (st : TravState) (key : String) :
    Good st { st with processed := st.processed ++ [(key, false)] } := by
  refine ⟨⟨List.prefix_refl _, List.prefix_refl _, List.prefix_refl _,
      List.prefix_append _ _, List.prefix_refl _⟩, ?_, ?_⟩
  · rintro ⟨hnd, hmem⟩
    exact ⟨hnd, hmem⟩
  · intro hf
    simp only [FetchInv] at hf ⊢
    simp [hf]

/-- Main step lemma: any completed-or-panicked traversal is a `Good` step
from its initial state. -/
theorem good_getAllLinks :
    ∀ (fuel : Nat) (issue : Issue) (env : Env) (st st' : TravState),
      resState (getAllLinks fuel issue env st) = some st' → Good st st' := by
  intro fuel
  induction fuel with
  | zero =>
    intro issue env st st' h
    simp [getAllLinks, resState] at h
  | succ n ih =>
    intro issue env st st' h
    rw [getAllLinks] at h
    simp only at h
    split at h
    · rename_i hEmpty
      rw [hEmpty] at h
      split at h
      · simp only [resState, Option.some.injEq] at h
        subst h
        exact good_ghost_empty st issue.key
      · exact (good_ghost_empty st issue.key).trans
          (good_processLinks (fun i s s' hs => ih i env s s' hs) _ _ _ _ h)
    · rename_i hEmpty
      have hb : issue.issueLinks.isEmpty = false := by
        revert hEmpty
        cases issue.issueLinks.isEmpty <;> simp
      rw [hb] at h
      exact (good_ghost_nonempty st issue.key).trans
        (good_processLinks (fun i s s' hs => ih i env s s' hs) _ _ _ _ h)

/-! Termination: with enough fuel the traversal never exhausts it.  The
measure is `sdm`, the number of signatures over the bounding key / type-name
sets not yet visited: every recursive call of `getAllLinks` is preceded by
inserting a fresh signature, so the measure strictly decreases. -/

theorem lookupIssue_mem :
    ∀ (l : List (String × Issue)) (key : String) (i : Issue),
      lookupIssue l key = some i → ∃ k, (k, i) ∈ l := by
  intro l
  induction l with
  | nil => intro key i h; simp [lookupIssue] at h
  | cons p rest ih =>
    intro key i h
    rw [lookupIssue] at h
    split at h
    · cases h
      exact ⟨p.1, by simp⟩
    · rcases ih key i h with ⟨k, hk⟩
      exact ⟨k, List.mem_cons_of_mem _ hk⟩

theorem IssueBounded.key_mem {K T : List String} {i : Issue}
    (h : IssueBounded K T i) : i.key ∈ K := by
  cases h with
  | mk key summary status typeName links hk hl => exact hk

theorem IssueBounded.links_bounded {K T : List String} {i : Issue}
    (h : IssueBounded K T i) : LinksBounded K T i.issueLinks := by
  cases h with
  | mk key summary status typeName links hk hl => exact hl

theorem LinkBounded.name_mem {K T : List String} {l : IssueLink}
    (h : LinkBounded K T l) : l.type.name ∈ T := by
  cases h with
  | mk ty oi ii ht ho hi => exact ht

theorem LinkBounded.outward_bounded {K T : List String} {l : IssueLink} {o : Issue}
    (h : LinkBounded K T l) (ho : l.outwardIssue = some o) : IssueBounded K T o := by
  cases h with
  | mk ty oi ii ht hob hib =>
    cases hob with
    | none => cases ho
    | some i hi =>
      cases ho
      exact hi

theorem LinkBounded.inward_bounded {K T : List String} {l : IssueLink} {i : Issue}
    (h : LinkBounded K T l) (hi : l.inwardIssue = some i) : IssueBounded K T i := by
  cases h with
  | mk ty oi ii ht hob hib =>
    cases hib with
    | none => cases hi
    | some j hj =>
      cases hi
      exact hj

theorem LinksBounded.head {K T : List String} {l : IssueLink} {ls : List IssueLink}
    (h : LinksBounded K T (l :: ls)) : LinkBounded K T l := by
  cases h with
  | cons a b ha hb => exact ha

theorem LinksBounded.tail {K T : List String} {l : IssueLink} {ls : List IssueLink}
    (h : LinksBounded K T (l :: ls)) : LinksBounded K T ls := by
  cases h with
  | cons a b ha hb => exact hb

theorem mem_sigsOf {K T : List String} {f t dst : String}
    (hf : f ∈ K) (ht : t ∈ T) (hd : dst ∈ K) : mkSig f t dst ∈ sigsOf K T := by
  simp only [sigsOf, List.mem_flatMap, List.mem_map]
  exact ⟨f, hf, t, ht, dst, hd, rfl⟩

theorem sdm_le_of_visited_subset {K T : List String} {st st' : TravState}
    (h : st.visited ⊆ st'.visited) : sdm K T st' ≤ sdm K T st := by
  apply Finset.card_le_card
  apply Finset.sdiff_subset_sdiff (Finset.Subset.refl _)
  intro a ha
  rw [List.mem_toFinset] at ha ⊢
  exact h ha

theorem sdm_append_lt {K T : List String} {st : TravState} {sig : String}
    (hs : sig ∈ sigsOf K T) (hnm : sig ∉ st.visited) :
    sdm K T { st with visited := st.visited ++ [sig] } < sdm K T st := by
  have hset : ((sigsOf K T).toFinset \ (st.visited ++ [sig]).toFinset) =
      ((sigsOf K T).toFinset \ st.visited.toFinset).erase sig := by
    ext a
    simp only [Finset.mem_sdiff, Finset.mem_erase, List.mem_toFinset, List.mem_append,
      List.mem_singleton]
    constructor
    · rintro ⟨ha, hb⟩
      exact ⟨fun hc => hb (Or.inr hc), ha, fun hc => hb (Or.inl hc)⟩
    · rintro ⟨ha, hb, hc⟩
      exact ⟨hb, fun hd => hd.elim hc ha⟩
  show ((sigsOf K T).toFinset \ (st.visited ++ [sig]).toFinset).card < _
  rw [hset]
  apply Finset.card_erase_lt_of_mem
  rw [Finset.mem_sdiff]
  exact ⟨List.mem_toFinset.mpr hs, fun hc => hnm (List.mem_toFinset.mp hc)⟩

theorem andThen_ne_outOfFuel {r : TravResult} {f : TravState → TravResult}
    (h1 : r ≠ .outOfFuel) (h2 : ∀ s, r = .ok s → f s ≠ .outOfFuel) :
    r.andThen f ≠ .outOfFuel := by
  cases r with
  | ok s => exact h2 s rfl
  | panicked s => simp [TravResult.andThen]
  | outOfFuel => exact absurd rfl h1

theorem sdm_congr {K T : List String} {st st' : TravState}
    (h : st.visited = st'.visited) : sdm K T st = sdm K T st' := by
  unfold sdm
  rw [h]
theorem outwardStep_safe {K T : List String} {env : Env} {fuel : Nat}
    (hsafe : ∀ i s, IssueBounded K T i → sdm K T s < fuel →
      getAllLinks fuel i env s ≠ .outOfFuel)
    {issue : Issue} (hk : issue.key ∈ K) {link : IssueLink} (hl : LinkBounded K T link)
    {st : TravState} (hm : sdm K T st ≤ fuel) :
    outwardStep (fun i s => getAllLinks fuel i env s) issue link st ≠ .outOfFuel := by
  cases ho : link.outwardIssue with
  | none => simp [outwardStep, ho]
  | some o =>
    simp only [outwardStep, ho]
    unfold visitLink
    split
    · simp
    · rename_i hg
      have hg' : StringSet.Exists st.visited (JiraLink.mk issue link o).toString = false := by
        revert hg
        cases StringSet.Exists st.visited (JiraLink.mk issue link o).toString <;> simp
      have hbo : IssueBounded K T o := hl.outward_bounded ho
      have hsig : (JiraLink.mk issue link o).toString ∈ sigsOf K T :=
        mem_sigsOf hk hl.name_mem hbo.key_mem
      have hnm : (JiraLink.mk issue link o).toString ∉ st.visited :=
        StringSet.not_mem_of_Exists_false hg'
      apply hsafe o _ hbo
      have h1 : sdm K T (markVisited (AddLink st ⟨issue, link, o⟩)
          (JiraLink.mk issue link o).toString) =
          sdm K T { st with visited := st.visited ++ [(JiraLink.mk issue link o).toString] } :=
        sdm_congr (StringSet.Add_eq_append hg')
      rw [h1]
      exact lt_of_lt_of_le (sdm_append_lt hsig hnm) hm

theorem inwardStep_safe {K T : List String} {env : Env} {fuel : Nat}
    (hsafe : ∀ i s, IssueBounded K T i → sdm K T s < fuel →
      getAllLinks fuel i env s ≠ .outOfFuel)
    {issue : Issue} (hk : issue.key ∈ K) {link : IssueLink} (hl : LinkBounded K T link)
    {st : TravState} (hm : sdm K T st ≤ fuel) :
    inwardStep (fun i s => getAllLinks fuel i env s) issue link st ≠ .outOfFuel := by
  cases hi : link.inwardIssue with
  | none => simp [inwardStep, hi]
  | some i =>
    simp only [inwardStep, hi]
    unfold visitLink
    split
    · simp
    · rename_i hg
      have hg' : StringSet.Exists st.visited (JiraLink.mk i link issue).toString = false := by
        revert hg
        cases StringSet.Exists st.visited (JiraLink.mk i link issue).toString <;> simp
      have hbi : IssueBounded K T i := hl.inward_bounded hi
      have hsig : (JiraLink.mk i link issue).toString ∈ sigsOf K T :=
        mem_sigsOf hbi.key_mem hl.name_mem hk
      have hnm : (JiraLink.mk i link issue).toString ∉ st.visited :=
        StringSet.not_mem_of_Exists_false hg'
      apply hsafe i _ hbi
      have h1 : sdm K T (markVisited (AddLink st ⟨i, link, issue⟩)
          (JiraLink.mk i link issue).toString) =
          sdm K T { st with visited := st.visited ++ [(JiraLink.mk i link issue).toString] } :=
        sdm_congr (StringSet.Add_eq_append hg')
      rw [h1]
      exact lt_of_lt_of_le (sdm_append_lt hsig hnm) hm

theorem processLinks_safe {K T : List String} {env : Env} {fuel : Nat}
    (hsafe : ∀ i s, IssueBounded K T i → sdm K T s < fuel →
      getAllLinks fuel i env s ≠ .outOfFuel)
    {issue : Issue} (hk : issue.key ∈ K) :
    ∀ (links : List IssueLink), LinksBounded K T links →
      ∀ (st : TravState), sdm K T st ≤ fuel →
        processLinks (fun i s => getAllLinks fuel i env s) issue links st ≠ .outOfFuel := by
  intro links
  induction links with
  | nil =>
    intro hlb st hm
    simp [processLinks]
  | cons link rest ih =>
    intro hlb st hm
    rw [processLinks]
    apply andThen_ne_outOfFuel (outwardStep_safe hsafe hk hlb.head hm)
    intro s1 hs1
    have hg1 : Good st s1 :=
      good_outwardStep (fun i s s' hs => good_getAllLinks fuel i env s s' hs)
        (by rw [hs1]; rfl)
    have hm1 : sdm K T s1 ≤ fuel :=
      le_trans (sdm_le_of_visited_subset hg1.1.1.subset) hm
    apply andThen_ne_outOfFuel (inwardStep_safe hsafe hk hlb.head hm1)
    intro s2 hs2
    have hg2 : Good s1 s2 :=
      good_inwardStep (fun i s s' hs => good_getAllLinks fuel i env s s' hs)
        (by rw [hs2]; rfl)
    have hm2 : sdm K T s2 ≤ fuel :=
      le_trans (sdm_le_of_visited_subset hg2.1.1.subset) hm1
    exact ih hlb.tail s2 hm2

theorem getAllLinks_safe {K T : List String} {env : Env}
    (henv : ∀ p ∈ env.issues, IssueBounded K T p.2) :
    ∀ (fuel : Nat) (issue : Issue) (st : TravState),
      IssueBounded K T issue → sdm K T st < fuel →
      getAllLinks fuel issue env st ≠ .outOfFuel := by
  intro fuel
  induction fuel with
  | zero =>
    intro issue st hb hm
    exact absurd hm (Nat.not_lt_zero _)
  | succ n ih =>
    intro issue st hb hm
    intro hcontra
    rw [getAllLinks] at hcontra
    simp only at hcontra
    split at hcontra
    · rename_i hEmpty
      rw [hEmpty] at hcontra
      split at hcontra
      · cases hcontra
      · rename_i issue1 hfetch
        rcases lookupIssue_mem _ _ _ hfetch with ⟨k, hkmem⟩
        have hb1 : IssueBounded K T issue1 := henv (k, issue1) hkmem
        refine processLinks_safe ih hb1.key_mem issue1.issueLinks hb1.links_bounded _ ?_ hcontra
        exact Nat.lt_succ_iff.mp hm
    · refine processLinks_safe ih hb.key_mem issue.issueLinks hb.links_bounded _ ?_ hcontra
      exact Nat.lt_succ_iff.mp hm

/-! Helper facts for the claim theorems. -/

theorem runRoots_count {env : Env} {fuel : Nat} :
    ∀ (ks : List String) (acc n : Nat), runRoots env fuel ks acc = some n →
      n = acc + ks.countP (rootFails env fuel) := by
  intro ks
  induction ks with
  | nil =>
    intro acc n h
    simp only [runRoots, Option.some.injEq] at h
    simp [← h]
  | cons k rest ih =>
    intro acc n h
    rw [runRoots] at h
    split at h
    · rename_i hg
      have hn := ih (acc + 1) n h
      rw [List.countP_cons]
      simp only [rootFails, hg, if_true]
      omega
    · rename_i hg
      have hn := ih acc n h
      rw [List.countP_cons]
      simp only [rootFails, hg, Bool.false_eq_true, if_false]
      omega
    · cases h
    · cases h

def cycleK : List String := ["A", "B", "C"]

def cycleT : List String := ["blocks"]

theorem cycBounded_stubA : IssueBounded cycleK cycleT stubA :=
  IssueBounded.mk "A" "" "" "" [] (by decide) LinksBounded.nil

theorem cycBounded_stubB : IssueBounded cycleK cycleT stubB :=
  IssueBounded.mk "B" "" "" "" [] (by decide) LinksBounded.nil

theorem cycBounded_stubC : IssueBounded cycleK cycleT stubC :=
  IssueBounded.mk "C" "" "" "" [] (by decide) LinksBounded.nil

theorem cycBounded_A : IssueBounded cycleK cycleT cycA :=
  IssueBounded.mk "A" "" "" "Story" _ (by decide)
    (LinksBounded.cons _ _
      (LinkBounded.mk tyBlocks (some stubB) none (by decide)
        (OptIssueBounded.some _ cycBounded_stubB) OptIssueBounded.none)
      LinksBounded.nil)

theorem cycBounded_B : IssueBounded cycleK cycleT cycB :=
  IssueBounded.mk "B" "" "" "Story" _ (by decide)
    (LinksBounded.cons _ _
      (LinkBounded.mk tyBlocks (some stubC) none (by decide)
        (OptIssueBounded.some _ cycBounded_stubC) OptIssueBounded.none)
      LinksBounded.nil)

theorem cycBounded_C : IssueBounded cycleK cycleT cycC :=
  IssueBounded.mk "C" "" "" "Story" _ (by decide)
    (LinksBounded.cons _ _
      (LinkBounded.mk tyBlocks (some stubA) none (by decide)
        (OptIssueBounded.some _ cycBounded_stubA) OptIssueBounded.none)
      LinksBounded.nil)

theorem envCycle_bounded : ∀ p ∈ envCycle.issues, IssueBounded cycleK cycleT p.2 := by
  intro p hp
  simp only [envCycle, List.mem_cons, List.not_mem_nil, or_false] at hp
  rcases hp with rfl | rfl | rfl
  · exact cycBounded_A
  · exact cycBounded_B
  · exact cycBounded_C

/-! The claims. -/

/-- Claim C1: for every traversal from a root issue, `AddLink` is invoked at
most once per edge signature — the emitted edges of any completed (or
panic-interrupted) traversal started from the fresh per-root state carry
pairwise distinct signatures, so a link signature discovered a second time
(via any traversal path) emits no second edge. -/
theorem addLink_once_per_signature :
    ∀ (fuel : Nat) (env : Env) (issue : Issue) (st' : TravState),
      resState (getAllLinks fuel issue env initState) = some st' →
      (st'.edges.map edgeSig).Nodup := by
  intro fuel env issue st' h
  have hg := good_getAllLinks fuel issue env initState st' h
  have hinv : NodupInv st' := hg.2.1 ⟨List.nodup_nil, fun e he => absurd he (List.not_mem_nil e)⟩
  exact hinv.1

theorem addLink_once_per_signature_witness :
    ((TravState.mk ["X-1 == blocks ==> X-2", "X-2 == Relates ==> X-3"]
        [⟨"X-1", "X-2", "blocks", "blocks", false⟩,
         ⟨"X-2", "X-3", "Relates", "relates to", true⟩]
        ["X-2", "X-3"] [("X-1", false), ("X-2", true), ("X-3", true)]
        ["X-1", "X-2", "X-3"]).edges.map edgeSig).Nodup :=
  addLink_once_per_signature 10 envX x1Full _ (by rfl)

/-- Claim C2: the traversal terminates on every finite issue-link graph —
whenever the issue graph is bounded by finite key / type-name sets (which
any concrete environment is), fuel exceeding the number of not-yet-visited
signatures is never exhausted, because every recursive call first inserts a
fresh signature into the strictly growing visited set; in particular, on the
cyclic graph A→B→C→A connected by three "blocks" links, traversal from A
terminates and emits exactly those 3 edges. -/
theorem traversal_terminates :
    (∀ (K T : List String) (env : Env) (issue : Issue) (st : TravState) (fuel : Nat),
      (∀ p ∈ env.issues, IssueBounded K T p.2) →
      IssueBounded K T issue → sdm K T st < fuel →
      getAllLinks fuel issue env st ≠ .outOfFuel) ∧
    getAllLinks 10 cycA envCycle initState = .ok
      { visited := ["A == blocks ==> B", "B == blocks ==> C", "C == blocks ==> A"],
        edges := [⟨"A", "B", "blocks", "blocks", false⟩,
                  ⟨"B", "C", "blocks", "blocks", false⟩,
                  ⟨"C", "A", "blocks", "blocks", false⟩],
        fetched := ["B", "C", "A"],
        processed := [("A", false), ("B", true), ("C", true), ("A", true)],
        nodes := ["A", "B", "C"] } :=
  ⟨fun K T env issue st fuel henv hb hm => getAllLinks_safe henv fuel issue st hb hm, rfl⟩

theorem traversal_terminates_witness :
    getAllLinks 10 cycA envCycle initState ≠ TravResult.outOfFuel :=
  traversal_terminates.1 cycleK cycleT envCycle cycA initState 10
    envCycle_bounded cycBounded_A (by decide)

/-- Claim C3 (code evaluation): when the re-fetch of a non-root node with an
empty link list fails, the traversal does NOT degrade that node to a leaf
and continue — `client.Issue.Get` returns a nil `*jira.Issue` on error (the
error being discarded), and the subsequent `issue.Fields.IssueLinks` access
panics.  In the scenario below root R links to M (fetch of "M" fails) and
then to L (present in the environment): the traversal panics at M and the
R→L edge is never emitted, so the rest of the graph is not processed. -/
theorem expansion_fetch_failure_panics :
    getAllLinks 10 failRoot envFail initState = .panicked
      { visited := ["R == blocks ==> M"],
        edges := [⟨"R", "M", "blocks", "blocks", false⟩],
        fetched := ["M"],
        processed := [("R", false), ("M", true)],
        nodes := ["R", "M"] } := rfl

/-- Claim C4: in the spec's example scenario — root X-1 with an outward
"blocks" link to X-2, where X-2 carries the same link as an inward
reference from X-1 plus an outward "relates to" link to X-3 — traversal
from X-1 emits exactly 2 edges, (X-1, blocks, X-2) and (X-2, relates to,
X-3), not 3: the shared link has the same signature from both ends. -/
theorem shared_link_two_edges :
    getAllLinks 10 x1Full envX initState = .ok
      { visited := ["X-1 == blocks ==> X-2", "X-2 == Relates ==> X-3"],
        edges := [⟨"X-1", "X-2", "blocks", "blocks", false⟩,
                  ⟨"X-2", "X-3", "Relates", "relates to", true⟩],
        fetched := ["X-2", "X-3"],
        processed := [("X-1", false), ("X-2", true), ("X-3", true)],
        nodes := ["X-1", "X-2", "X-3"] } := rfl

/-- Claim C5: for a link carrying an inward reference, the constructed edge
is (inward issue key, link type, current issue key) — direction inverted
relative to discovery — and its displayed label is the link type's outward
phrasing, the same text an outward edge of the same link would display. -/
theorem inward_edge_inverted_outward_text :
    ∀ (fuel : Nat) (env : Env) (issue : Issue) (link : IssueLink) (i : Issue)
      (st st' : TravState),
      link.inwardIssue = some i →
      StringSet.Exists st.visited (JiraLink.mk i link issue).toString = false →
      resState (inwardStep (fun a s => getAllLinks fuel a env s) issue link st) = some st' →
      (st.edges ++ [mkEdge ⟨i, link, issue⟩] <+: st'.edges) ∧
      (mkEdge ⟨i, link, issue⟩).fromKey = i.key ∧
      (mkEdge ⟨i, link, issue⟩).toKey = issue.key ∧
      (mkEdge ⟨i, link, issue⟩).text = link.type.outward ∧
      ∀ o : Issue, (mkEdge ⟨issue, link, o⟩).text = link.type.outward := by
  intro fuel env issue link i st st' hi hg hres
  refine ⟨?_, rfl, rfl, rfl, fun o => rfl⟩
  simp only [inwardStep, hi] at hres
  unfold visitLink at hres
  rw [hg] at hres
  simp only [Bool.false_eq_true, if_false] at hres
  have hgood := good_getAllLinks fuel i env
    (markVisited (AddLink st ⟨i, link, issue⟩) (JiraLink.mk i link issue).toString) st' hres
  exact hgood.1.2.1

theorem inward_edge_inverted_outward_text_witness :
    initState.edges ++ [mkEdge ⟨stubX1, IssueLink.mk tyBlocks none (some stubX1), x2Full⟩] <+:
      (TravState.mk ["X-1 == blocks ==> X-2"]
        [⟨"X-1", "X-2", "blocks", "blocks", false⟩]
        ["X-1"] [("X-1", true)] ["X-1", "X-2"]).edges :=
  (inward_edge_inverted_outward_text 10 envX x2Full
    (IssueLink.mk tyBlocks none (some stubX1)) stubX1 initState _ rfl rfl (by rfl)).1

/-- Claim C6: re-fetching is performed exactly for issues processed with an
empty link list — along any completed (or panic-interrupted) traversal, the
fetch log equals, entry for entry and in order, the own keys of the
processed issues whose link list was empty on entry; issues processed with
a non-empty link list contribute no fetch. -/
theorem refetch_iff_empty_links :
    ∀ (fuel : Nat) (env : Env) (issue : Issue) (st st' : TravState),
      st.fetched = (st.processed.filter fun p => p.2).map (fun p => p.1) →
      resState (getAllLinks fuel issue env st) = some st' →
      st'.fetched = (st'.processed.filter fun p => p.2).map (fun p => p.1) := by
  intro fuel env issue st st' hf h
  exact (good_getAllLinks fuel issue env st st' h).2.2 hf

theorem refetch_iff_empty_links_witness :
    (["X-2", "X-3"] : List String) =
      (([("X-1", false), ("X-2", true), ("X-3", true)].filter fun p => p.2).map fun p => p.1) :=
  refetch_iff_empty_links 10 envX x1Full initState
    (TravState.mk ["X-1 == blocks ==> X-2", "X-2 == Relates ==> X-3"]
      [⟨"X-1", "X-2", "blocks", "blocks", false⟩,
       ⟨"X-2", "X-3", "Relates", "relates to", true⟩]
      ["X-2", "X-3"] [("X-1", false), ("X-2", true), ("X-3", true)]
      ["X-1", "X-2", "X-3"]) rfl (by rfl)

/-- Claim C7: a self-loop — here a link on S whose outward and inward
references are both S itself — is processed as a valid edge: traversal
emits exactly one edge (S, duplicates, S) and does not emit it a second
time for the inward reference. -/
theorem self_loop_single_edge :
    getAllLinks 10 selfRoot envSelf initState = .ok
      { visited := ["S == duplicates ==> S"],
        edges := [⟨"S", "S", "duplicates", "duplicates", false⟩],
        fetched := ["S"],
        processed := [("S", false), ("S", true)],
        nodes := ["S"] } := rfl

/-- Claim C8: a root of type "Epic" is expanded through the paginated JQL
search "parentEpic = <key>" followed by the batched detail fetch
(`SearchAndFetch`), and traversal runs from each resulting child while
sharing one visited set (`traverseAll` threads a single state), instead of
traversing the epic's own links; any non-Epic root is traversed directly. -/
theorem epic_root_traverses_children :
    ∀ (env : Env) (fuel : Nat) (issueNum : String) (root : Issue),
      env.fetch (trimSpace issueNum) = some root →
      (root.typeName = "Epic" →
        genDepFlowchart env fuel issueNum =
          match SearchAndFetch env fuel ("parentEpic = " ++ root.key) with
          | none => .fetchError
          | some children => .trav (traverseAll fuel env children initState)) ∧
      (root.typeName ≠ "Epic" →
        genDepFlowchart env fuel issueNum = .trav (getAllLinks fuel root env initState)) := by
  intro env fuel issueNum root hfetch
  constructor
  · intro hepic
    unfold genDepFlowchart
    rw [hfetch]
    simp only [hepic, if_true]
  · intro hnot
    unfold genDepFlowchart
    rw [hfetch]
    simp only [hnot, if_false]

theorem epic_root_traverses_children_witness :
    (genDepFlowchart envEpic 10 "E-1" =
      match SearchAndFetch envEpic 10 ("parentEpic = " ++ epicRoot.key) with
      | none => GenResult.fetchError
      | some children => .trav (traverseAll 10 envEpic children initState)) ∧
    genDepFlowchart envX 10 "X-1" = .trav (getAllLinks 10 x1Full envX initState) :=
  ⟨(epic_root_traverses_children envEpic 10 "E-1" epicRoot (by rfl)).1 rfl,
   (epic_root_traverses_children envX 10 "X-1" x1Full (by rfl)).2 (by decide)⟩

/-- Claim C9: for a CLI invocation with root issue keys, the value passed to
`os.Exit` equals the number of roots whose resolution (root fetch, or Epic
child search) failed: a failed root only increments the counter and
processing continues with the remaining roots. -/
theorem exit_code_counts_failed_roots :
    ∀ (env : Env) (fuel : Nat) (ks : List String) (n : Nat),
      runRoots env fuel ks 0 = some n →
      n = ks.countP (rootFails env fuel) := by
  intro env fuel ks n h
  have := runRoots_count ks 0 n h
  omega

theorem exit_code_counts_failed_roots_witness :
    (1 : Nat) = (["X-1", "NOPE"].countP (rootFails envX 10)) :=
  exit_code_counts_failed_roots envX 10 ["X-1", "NOPE"] 1 (by rfl)

/-- Claim C10: the signature built by `JiraLink.String` concatenates the
three components with unescaped separators, so it is not injective over
(from key, type name, to key): the distinct triples ("A == B", "C", "D")
and ("A", "B == C", "D") collide, and a traversal that discovers two
distinct such triples emits only one edge — two distinct edges are
conflated by the deduplication. -/
theorem signature_not_injective :
    mkSig "A == B" "C" "D" = mkSig "A" "B == C" "D" ∧
    ("A == B", "C", "D") ≠ (("A", "B == C", "D") : String × String × String) ∧
    getAllLinks 10 colRoot envCol initState = .ok
      { visited := ["A == B == C ==> D"],
        edges := [⟨"A", "D", "B == C", "b-c", false⟩],
        fetched := ["A"],
        processed := [("D", false), ("A", true)],
        nodes := ["A", "D"] } :=
  ⟨rfl, by decide, rfl⟩
